import Mathlib

/-!
Shallow embedding of the FIFO portfolio ledger of `src/data/base.py` and the
second copy of it in `src/data/mt5_reader.py`, together with the canonical
(FxBlue-format) exporter.  Conventions of the embedding:

* timestamps (`pd.Timestamp`) are opaque monotone-comparable values, modelled
  as `ℕ`; a `close_time` of Python `None` is `Option.none`;
* floats are modelled as `ℚ`; the float fields that the source guards with
  `pd.isna` (deal comments and deal profits) are modelled as `Option`, with
  `none` standing for `NaN`/`None`, and addition on such fields propagates
  `none` the way float addition propagates `NaN`;
* a `pandas.DataFrame` row is modelled as a record whose fields are the
  frame's columns; a column absent from one of the two concatenated frames
  (`Symbol` and `Buy/sell` for deposit rows) holds `none` on those rows,
  mirroring the `NaN` that `pd.concat` fills in;
* raising `ValueError` is modelled with `Except.error`; since the Python
  method raises before any assignment to `self`, the erroring branch returns
  the ledger unchanged.
-/

namespace Pai

/-- Type of position (`class PosType` in `src/data/base.py`). -/
inductive PosType where
  | BUY
  | SELL
deriving DecidableEq, Repr

/-- The `.value` of the enum member (`"Buy"` / `"Sell"`). -/
def PosType.value : PosType → String
  | .BUY => "Buy"
  | .SELL => "Sell"

/-- Returns the inverse of the position type (`PosType.inverse`). -/
def PosType.inverse : PosType → PosType
  | .BUY => .SELL
  | .SELL => .BUY

/-- `@dataclass Position` of `src/data/base.py`.  `profit` is `Option ℚ`
because a close deal may add a `NaN` profit to it (`none` = `NaN`). -/
structure Position where
  id : ℕ
  symbol : String
  volume : ℚ
  open_time : ℕ
  open_price : ℚ
  type : PosType
  comment : String
  close_time : Option ℕ
  close_price : Option ℚ
  swap : ℚ
  commission : ℚ
  profit : Option ℚ
deriving DecidableEq, Repr

/-- `Position.is_open`: returns true if the position is still open
(`self.close_time is None`). -/
def Position.is_open (p : Position) : Bool :=
  p.close_time.isNone

/-- `@dataclass Trade` of `src/data/base.py`: a trade that opens or closes a
position.  `comment` and `profit` may be `NaN`/`None`, hence `Option`. -/
structure Trade where
  time : ℕ
  symbol : String
  pos_type : PosType
  volume : ℚ
  price : ℚ
  comment : Option String
  swap : ℚ
  commission : ℚ
  profit : Option ℚ
deriving DecidableEq, Repr

/-- `@dataclass Deposit`: deposit/withdrawal transaction. -/
structure Deposit where
  id : ℕ
  time : ℕ
  amount : ℚ
deriving DecidableEq, Repr

/-- The state of `class FifoPortfolio`: deposits, opened positions, closed
positions, and the shared ticket counter `_last_id`. -/
structure Ledger where
  deposits : List Deposit
  opened_positions : List Position
  closed_positions : List Position
  last_id : ℕ
deriving DecidableEq, Repr

/-- `FifoPortfolio.__init__`: empty lists, counter 0. -/
def Ledger.init : Ledger :=
  { deposits := [], opened_positions := [], closed_positions := [], last_id := 0 }

/-- `FifoPortfolio.has_open_positions`: `len(self._opened_positions) > 0`. -/
def has_open_positions (L : Ledger) : Bool :=
  decide (L.opened_positions.length > 0)

/-- `FifoPortfolio.deposit`: increments the counter and appends a `Deposit`
carrying the new id. -/
def Ledger.deposit (L : Ledger) (time : ℕ) (amount : ℚ) : Ledger :=
  { L with
      last_id := L.last_id + 1,
      deposits := L.deposits ++ [{ id := L.last_id + 1, time := time, amount := amount }] }

/-- The position record that `open_position` of `src/data/base.py` appends:
the next ticket, the deal's attributes, comment `""` when the deal comment
is `NaN`/`None`, and profit `0` when the deal profit is `NaN`. -/
def opened_of (L : Ledger) (trade : Trade) : Position :=
  { id := L.last_id + 1,
    symbol := trade.symbol,
    volume := trade.volume,
    open_time := trade.time,
    open_price := trade.price,
    type := trade.pos_type,
    comment := trade.comment.getD "",
    close_time := none,
    close_price := none,
    swap := trade.swap,
    commission := trade.commission,
    profit := some (trade.profit.getD 0) }

/-- `FifoPortfolio.open_position` of `src/data/base.py`: increments the
counter and appends the new open position. -/
def open_position (L : Ledger) (trade : Trade) : Ledger :=
  { L with
      last_id := L.last_id + 1,
      opened_positions := L.opened_positions ++ [opened_of L trade] }

/-- The membership test of the list comprehension in `close_position`:
`pos.symbol == trade.symbol and pos.type == trade.pos_type and
pos.volume == trade.volume`. -/
def matches_trade (trade : Trade) (pos : Position) : Bool :=
  pos.symbol == trade.symbol && pos.type == trade.pos_type && pos.volume == trade.volume

/-- The data carried by the `ValueError` message
`"No open position for symbol: ... and type: ... and volume: ..."`. -/
structure CloseError where
  symbol : String
  pos_type : PosType
  volume : ℚ
deriving DecidableEq, Repr

/-- NaN-propagating addition on NaN-able floats (`none` = `NaN`), mirroring
`pos.profit += trade.profit` on floats. -/
def naddQ : Option ℚ → Option ℚ → Option ℚ
  | some a, some b => some (a + b)
  | _, _ => none

/-- The mutation of the matched position inside `close_position`: set close
time/price, append the bracketed deal comment when present, and add the
deal's swap/commission/profit to the running totals. -/
def apply_close (trade : Trade) (pos : Position) : Position :=
  { pos with
      close_time := some trade.time,
      close_price := some trade.price,
      comment :=
        match trade.comment with
        | none => pos.comment
        | some c => pos.comment ++ " [" ++ c ++ "]",
      swap := pos.swap + trade.swap,
      commission := pos.commission + trade.commission,
      profit := naddQ pos.profit trade.profit }

/-- `FifoPortfolio.close_position` of `src/data/base.py`.  Filters the open
list for exact (symbol, type, volume) matches; raises (first component
`Except.error`, state unchanged) when there is none; otherwise removes the
first match from the open list, applies the close mutations, and appends it
to the closed list. -/
def close_position (L : Ledger) (trade : Trade) : Except CloseError Unit × Ledger :=
  match L.opened_positions.filter (matches_trade trade) with
  | [] => (Except.error { symbol := trade.symbol, pos_type := trade.pos_type, volume := trade.volume }, L)
  | pos :: _ =>
      (Except.ok (),
        { L with
            opened_positions := L.opened_positions.erase pos,
            closed_positions := L.closed_positions ++ [apply_close trade pos] })

/-- A row of the two intermediate frames of `as_cannonical_data` after
`pd.concat`: the union of the deposit-frame and position-frame columns.
`symbol` and `buy_sell` are `none` on deposit rows (columns absent from the
deposit frame, `NaN`-filled by `concat`). -/
structure RawRow where
  type : String
  ticket : ℕ
  symbol : Option String
  lots : ℚ
  buy_sell : Option String
  open_price : ℚ
  close_price : Option ℚ
  open_time : ℕ
  close_time : Option ℕ
  profit : Option ℚ
  swap : ℚ
  commission : ℚ
  order_comment : String
deriving DecidableEq, Repr

/-- A row of the final canonical table (the 17 columns of
`CANONICAL_COL_ORDER`). -/
structure Row where
  type : String
  ticket : ℕ
  symbol : Option String
  lots : ℚ
  buy_sell : Option String
  open_price : ℚ
  close_price : Option ℚ
  open_time : ℕ
  close_time : Option ℕ
  profit : Option ℚ
  swap : ℚ
  commission : ℚ
  net_profit : Option ℚ
  tp : ℚ
  sl : ℚ
  magic_number : ℚ
  order_comment : String
deriving DecidableEq, Repr

/-- The row built for a deposit in `as_cannonical_data`: Type `"Deposit"`,
ticket, the amount in the `Profit` column, the deposit time as both open and
close time, the literal `"Deposit"` as order comment, and zeros for lots,
prices, swap and commission.  `symbol`/`buy_sell` are `none` (`NaN`). -/
def deposit_raw (tx : Deposit) : RawRow :=
  { type := "Deposit",
    ticket := tx.id,
    symbol := none,
    lots := 0,
    buy_sell := none,
    open_price := 0,
    close_price := some 0,
    open_time := tx.time,
    close_time := some tx.time,
    profit := some tx.amount,
    swap := 0,
    commission := 0,
    order_comment := "Deposit" }

/-- The row built for a closed position in `as_cannonical_data`. -/
def position_raw (pos : Position) : RawRow :=
  { type := "Closed position",
    ticket := pos.id,
    symbol := some pos.symbol,
    lots := pos.volume,
    buy_sell := some pos.type.value,
    open_price := pos.open_price,
    close_price := pos.close_price,
    open_time := pos.open_time,
    close_time := pos.close_time,
    profit := pos.profit,
    swap := pos.swap,
    commission := pos.commission,
    order_comment := pos.comment }

/-- The derived columns added after the sort:
`Net profit = Profit + Swap + Commission` (NaN-propagating) and the constant
zero columns `T/P`, `S/L`, `Magic number`. -/
def finishRow (r : RawRow) : Row :=
  { type := r.type,
    ticket := r.ticket,
    symbol := r.symbol,
    lots := r.lots,
    buy_sell := r.buy_sell,
    open_price := r.open_price,
    close_price := r.close_price,
    open_time := r.open_time,
    close_time := r.close_time,
    profit := r.profit,
    swap := r.swap,
    commission := r.commission,
    net_profit := r.profit.map (fun p => p + r.swap + r.commission),
    tp := 0,
    sl := 0,
    magic_number := 0,
    order_comment := r.order_comment }

/-- The `sort_values(by="Ticket")` comparison on rows. -/
def rowLE (a b : RawRow) : Prop :=
  a.ticket ≤ b.ticket

instance : DecidableRel rowLE :=
  fun a b => Nat.decLe a.ticket b.ticket

instance : IsTotal RawRow rowLE :=
  ⟨fun a b => Nat.le_total a.ticket b.ticket⟩

instance : IsTrans RawRow rowLE :=
  ⟨fun _ _ _ hab hbc => Nat.le_trans hab hbc⟩

/-- `FifoPortfolio.as_cannonical_data` of `src/data/base.py`: one row per
deposit and per closed position, concatenated, sorted by ticket, with the
derived columns appended.  Open positions are not consulted at all. -/
def as_cannonical_data (L : Ledger) : List Row :=
  (List.insertionSort rowLE
      (L.deposits.map deposit_raw ++ L.closed_positions.map position_raw)).map finishRow

/-- The `as_cannonical_data` method viewed as a state transformer: the method
reads `self` and builds a fresh frame; it assigns nothing to `self`, so the
resulting ledger state is the input state. -/
def as_cannonical_dataM (L : Ledger) : List Row × Ledger :=
  (as_cannonical_data L, L)

/-- `Mt5Reader.get_cannoncial_data` (the export part, after the deal loop):
raises `"Some positions are still open"` when `has_open_positions`, else
returns `as_cannonical_data()`.  `Mt4HTMLReader._parse` performs the same
guard. -/
def get_cannoncial_data (L : Ledger) : Except String (List Row) :=
  if has_open_positions L then Except.error "Some positions are still open"
  else Except.ok (as_cannonical_data L)

/-- `FifoPortfolio.deposit` of the second copy in `src/data/mt5_reader.py`
(same body as the one in `base.py`). -/
def mt5_deposit (L : Ledger) (time : ℕ) (amount : ℚ) : Ledger :=
  { L with
      last_id := L.last_id + 1,
      deposits := L.deposits ++ [{ id := L.last_id + 1, time := time, amount := amount }] }

/-- `FifoPortfolio.open_position` of `src/data/mt5_reader.py`: takes the deal
fields positionally and, unlike the `base.py` copy, stores the incoming
profit without a `pd.isna` guard (a `NaN` profit is stored as `none`). -/
def mt5_open_position (L : Ledger) (time : ℕ) (symbol : String) (pos_type : PosType)
    (volume : ℚ) (price : ℚ) (comment : Option String) (swap : ℚ) (commission : ℚ)
    (profit : Option ℚ) : Ledger :=
  { L with
      last_id := L.last_id + 1,
      opened_positions := L.opened_positions ++
        [{ id := L.last_id + 1,
           symbol := symbol,
           volume := volume,
           open_time := time,
           open_price := price,
           type := pos_type,
           comment := comment.getD "",
           close_time := none,
           close_price := none,
           swap := swap,
           commission := commission,
           profit := profit }] }

/-- `FifoPortfolio.close_position` of `src/data/mt5_reader.py`: same logic as
the `base.py` copy, with the deal fields passed positionally. -/
def mt5_close_position (L : Ledger) (time : ℕ) (symbol : String) (pos_type : PosType)
    (volume : ℚ) (price : ℚ) (comment : Option String) (swap : ℚ) (commission : ℚ)
    (profit : Option ℚ) : Except CloseError Unit × Ledger :=
  match L.opened_positions.filter (fun pos =>
      pos.symbol == symbol && pos.type == pos_type && pos.volume == volume) with
  | [] => (Except.error { symbol := symbol, pos_type := pos_type, volume := volume }, L)
  | pos :: _ =>
      (Except.ok (),
        { L with
            opened_positions := L.opened_positions.erase pos,
            closed_positions := L.closed_positions ++
              [{ pos with
                   close_time := some time,
                   close_price := some price,
                   comment :=
                     match comment with
                     | none => pos.comment
                     | some c => pos.comment ++ " [" ++ c ++ "]",
                   swap := pos.swap + swap,
                   commission := pos.commission + commission,
                   profit := naddQ pos.profit profit }] })

/-- `FifoPortfolio.as_cannonical_data` of `src/data/mt5_reader.py`: identical
to the `base.py` exporter except for the final `reset_index(drop=True)`,
which renumbers the frame index and leaves the rows untouched (row lists are
the whole table in this embedding). -/
def mt5_as_cannonical_data (L : Ledger) : List Row :=
  (List.insertionSort rowLE
      (L.deposits.map deposit_raw ++ L.closed_positions.map position_raw)).map finishRow

/-- One ledger event: a deposit, an opening deal, or a closing deal. -/
inductive Event where
  | dep (time : ℕ) (amount : ℚ)
  | opn (trade : Trade)
  | cls (trade : Trade)
deriving DecidableEq, Repr

/-- One driver step on the `base.py` ledger.  A failed close raises before
any state assignment, so its resulting state is the unchanged ledger. -/
def step (L : Ledger) : Event → Ledger
  | .dep t a => L.deposit t a
  | .opn trade => open_position L trade
  | .cls trade => (close_position L trade).2

/-- Running a sequence of events from a given ledger state. -/
def runFrom (L : Ledger) (es : List Event) : Ledger :=
  es.foldl step L

/-- Running a sequence of events on a fresh `FifoPortfolio`. -/
def run (es : List Event) : Ledger :=
  runFrom Ledger.init es

/-- One driver step on the `mt5_reader.py` ledger, passing the same deal
fields to the positional-argument operations. -/
def mt5_step (L : Ledger) : Event → Ledger
  | .dep t a => mt5_deposit L t a
  | .opn trade =>
      mt5_open_position L trade.time trade.symbol trade.pos_type trade.volume
        trade.price trade.comment trade.swap trade.commission trade.profit
  | .cls trade =>
      (mt5_close_position L trade.time trade.symbol trade.pos_type trade.volume
        trade.price trade.comment trade.swap trade.commission trade.profit).2

/-- Running a sequence of events on a fresh `mt5_reader.py` portfolio. -/
def mt5_runFrom (L : Ledger) (es : List Event) : Ledger :=
  es.foldl mt5_step L

/-- Running a sequence of events on a fresh `mt5_reader.py` portfolio. -/
def mt5_run (es : List Event) : Ledger :=
  mt5_runFrom Ledger.init es

/-- The tickets handed out while running the events: each deposit or open
event consumes `last_id + 1` of the state it executes in; close events
assign no ticket. -/
def tickets_assigned (L : Ledger) : List Event → List ℕ
  | [] => []
  | e :: es =>
    match e with
    | .dep _ _ => (L.last_id + 1) :: tickets_assigned (step L e) es
    | .opn _ => (L.last_id + 1) :: tickets_assigned (step L e) es
    | .cls _ => tickets_assigned (step L e) es

/-- All ticket ids present anywhere in the ledger. -/
def allIds (L : Ledger) : List ℕ :=
  L.deposits.map Deposit.id ++ L.opened_positions.map Position.id
    ++ L.closed_positions.map Position.id

/-- The state invariant maintained by the ledger operations: positions in the
open list carry no close time, positions in the closed list do, ids are
strictly increasing along the deposit list and along the open list, every id
is bounded by the counter, and ids are globally distinct. -/
def Inv (L : Ledger) : Prop :=
  (∀ p ∈ L.opened_positions, p.close_time = none) ∧
  (∀ p ∈ L.closed_positions, p.close_time ≠ none) ∧
  (L.deposits.map Deposit.id).Pairwise (· < ·) ∧
  (L.opened_positions.map Position.id).Pairwise (· < ·) ∧
  (∀ i ∈ allIds L, i ≤ L.last_id) ∧
  (allIds L).Nodup

/-- An event whose deal fields carry no `NaN` profit and no `NaN`/`None`
comment. -/
def event_not_nan : Event → Bool
  | .dep _ _ => true
  | .opn t => t.profit.isSome && t.comment.isSome
  | .cls t => t.profit.isSome && t.comment.isSome

/-- A concrete opening deal used in the concrete evaluations below. -/
def egOpen1 : Trade :=
  { time := 1, symbol := "EURUSD", pos_type := .BUY, volume := 1,
    price := 11, comment := some "grid-1", swap := 0, commission := 0, profit := some 0 }

/-- A second concrete opening deal with the same (symbol, side, volume). -/
def egOpen2 : Trade :=
  { time := 2, symbol := "EURUSD", pos_type := .BUY, volume := 1,
    price := 12, comment := none, swap := 0, commission := 0, profit := some 0 }

/-- A concrete closing deal matching `egOpen1`/`egOpen2`. -/
def egClose : Trade :=
  { time := 3, symbol := "EURUSD", pos_type := .BUY, volume := 1,
    price := 13, comment := some "tp-hit", swap := 0, commission := 0, profit := some 500 }

/-- A concrete closing deal whose volume matches no open position. -/
def egBadClose : Trade :=
  { time := 4, symbol := "EURUSD", pos_type := .BUY, volume := 2,
    price := 13, comment := none, swap := 0, commission := 0, profit := some 0 }

/-- The position created by running `egOpen1` first on a fresh ledger. -/
def egPos1 : Position :=
  { id := 1, symbol := "EURUSD", volume := 1, open_time := 1, open_price := 11,
    type := .BUY, comment := "grid-1", close_time := none, close_price := none,
    swap := 0, commission := 0, profit := some 0 }

/-- The position created by running `egOpen2` second on a fresh ledger. -/
def egPos2 : Position :=
  { id := 2, symbol := "EURUSD", volume := 1, open_time := 2, open_price := 12,
    type := .BUY, comment := "", close_time := none, close_price := none,
    swap := 0, commission := 0, profit := some 0 }

/-- A concrete ledger holding one still-open position. -/
def egOpenLedger : Ledger := run [Event.opn egOpen1]

/-- A concrete ledger holding one deposit and nothing else. -/
def egDepositLedger : Ledger := run [Event.dep 5 100]

/-- A concrete fully-closed ledger: a deposit, an open, and a matching
close. -/
def egClosedLedger : Ledger := run [Event.dep 5 100, Event.opn egOpen1, Event.cls egClose]

/-- A concrete ledger holding one deposit and one still-open position. -/
def egMixedLedger : Ledger := run [Event.dep 5 100, Event.opn egOpen1]

/-! ### Helper lemmas -/

/-- Unfolding `close_position` when the match filter comes up empty: the
error carries the requested key and the ledger is returned as it was. -/
theorem close_position_of_filter_nil {L : Ledger} {t : Trade}
    (h : L.opened_positions.filter (matches_trade t) = []) :
    close_position L t =
      (Except.error { symbol := t.symbol, pos_type := t.pos_type, volume := t.volume }, L) := by
  simp only [close_position, h]

/-- Unfolding `close_position` when the match filter finds a first match. -/
theorem close_position_of_filter_cons {L : Ledger} {t : Trade} {pos : Position}
    {rest : List Position}
    (h : L.opened_positions.filter (matches_trade t) = pos :: rest) :
    close_position L t =
      (Except.ok (),
        { L with
            opened_positions := L.opened_positions.erase pos,
            closed_positions := L.closed_positions ++ [apply_close t pos] }) := by
  simp only [close_position, h]

/-- Erasing the head of a nonempty filter result removes exactly the first
element satisfying the predicate: the filtered view of the remainder is the
tail of the original filter result. -/
theorem filter_erase_head {α : Type} [DecidableEq α] (f : α → Bool) :
    ∀ (l : List α) (p : α) (rest : List α), l.filter f = p :: rest →
      (l.erase p).filter f = rest := by
  intro l
  induction l with
  | nil => intro p rest h; simp at h
  | cons a l ih =>
    intro p rest h
    by_cases hfa : f a
    · rw [List.filter_cons_of_pos hfa] at h
      obtain ⟨rfl, hrest⟩ : a = p ∧ l.filter f = rest := by
        constructor
        · exact (List.cons.injEq _ _ _ _ ▸ h).1
        · exact (List.cons.injEq _ _ _ _ ▸ h).2
      rw [List.erase_cons_head, hrest]
    · rw [List.filter_cons_of_neg hfa] at h
      have hp : p ∈ l.filter f := h ▸ List.mem_cons_self p rest
      have hfp : f p = true := List.of_mem_filter hp
      have hap : a ≠ p := by
        intro hEq
        rw [hEq] at hfa
        exact hfa hfp
      rw [List.erase_cons_tail, List.filter_cons_of_neg hfa]
      · exact ih p rest h
      · simp [hap]

/-- In a list whose images under `f` are pairwise distinct, filtering for the
key of one member returns exactly that member. -/
theorem filter_key_singleton {α β : Type} [DecidableEq β] (f : α → β) :
    ∀ (l : List α) (x : α), x ∈ l → (l.map f).Nodup →
      l.filter (fun y => f y == f x) = [x] := by
  intro l
  induction l with
  | nil => intro x hx _; simp at hx
  | cons a l ih =>
    intro x hx hnd
    rw [List.map_cons, List.nodup_cons] at hnd
    rcases List.mem_cons.mp hx with rfl | hxl
    · rw [List.filter_cons_of_pos (by simp)]
      have : l.filter (fun y => f y == f x) = [] := by
        rw [List.filter_eq_nil_iff]
        intro y hy hbeq
        exact hnd.1 (by
          have : f y = f x := by simpa using hbeq
          exact this ▸ List.mem_map_of_mem f hy)
      rw [this]
    · have hne : f a ≠ f x := by
        intro hEq
        exact hnd.1 (hEq ▸ List.mem_map_of_mem f hxl)
      rw [List.filter_cons_of_neg (by simp [hne])]
      exact ih x hxl hnd.2

/-- A `≤`-sorted list of naturals without duplicates is `<`-sorted. -/
theorem pairwise_lt_of_le_nodup {l : List ℕ} (hle : l.Pairwise (· ≤ ·))
    (hnd : l.Nodup) : l.Pairwise (· < ·) :=
  (hle.and hnd).imp fun h => Nat.lt_of_le_of_ne h.1 h.2

/-- The invariant holds of the fresh ledger. -/
theorem inv_init : Inv Ledger.init := by
  refine ⟨?_, ?_, ?_, ?_, ?_, ?_⟩ <;> simp [Ledger.init, allIds]

/-- `deposit` preserves the invariant. -/
theorem inv_deposit {L : Ledger} (h : Inv L) (time : ℕ) (amount : ℚ) :
    Inv (L.deposit time amount) := by
  obtain ⟨ho, hc, hd, hop, hb, hnd⟩ := h
  have hperm : List.Perm (allIds (L.deposit time amount)) ((L.last_id + 1) :: allIds L) := by
    simp only [allIds, Ledger.deposit, List.map_append, List.map_cons, List.map_nil,
      List.append_assoc, List.singleton_append]
    exact List.perm_middle
  refine ⟨ho, hc, ?_, hop, ?_, ?_⟩
  · rw [Ledger.deposit, List.map_append]
    rw [List.pairwise_append]
    refine ⟨hd, by simp, ?_⟩
    intro a ha b hb'
    have hale : a ≤ L.last_id := hb a (List.mem_append_left _ (List.mem_append_left _ ha))
    simp only [List.map_cons, List.map_nil, List.mem_singleton] at hb'
    omega
  · intro i hi
    have : i ∈ (L.last_id + 1) :: allIds L := hperm.mem_iff.mp hi
    rcases List.mem_cons.mp this with rfl | hmem
    · rfl
    · exact Nat.le_succ_of_le (hb i hmem)
  · refine hperm.symm.nodup (List.nodup_cons.mpr ⟨?_, hnd⟩)
    intro hmem
    have := hb _ hmem
    omega

/-- `open_position` preserves the invariant. -/
theorem inv_open_position {L : Ledger} (h : Inv L) (t : Trade) :
    Inv (open_position L t) := by
  obtain ⟨ho, hc, hd, hop, hb, hnd⟩ := h
  have hperm : List.Perm (allIds (open_position L t)) ((L.last_id + 1) :: allIds L) := by
    simp only [allIds, open_position, List.map_append, List.map_cons, List.map_nil,
      List.append_assoc, List.singleton_append]
    exact (List.Perm.append_left _ List.perm_middle).trans List.perm_middle
  have hid : (opened_of L t).id = L.last_id + 1 := rfl
  refine ⟨?_, hc, hd, ?_, ?_, ?_⟩
  · intro p hp
    rcases List.mem_append.mp hp with hmem | hmem
    · exact ho p hmem
    · simp only [List.mem_singleton] at hmem
      rw [hmem]
      rfl
  · rw [open_position, List.map_append]
    rw [List.pairwise_append]
    refine ⟨hop, by simp, ?_⟩
    intro a ha b hb'
    have hale : a ≤ L.last_id :=
      hb a (List.mem_append_left _ (List.mem_append_right _ ha))
    simp only [List.map_cons, List.map_nil, List.mem_singleton, hid] at hb'
    omega
  · intro i hi
    have : i ∈ (L.last_id + 1) :: allIds L := hperm.mem_iff.mp hi
    rcases List.mem_cons.mp this with rfl | hmem
    · rfl
    · exact Nat.le_succ_of_le (hb i hmem)
  · refine hperm.symm.nodup (List.nodup_cons.mpr ⟨?_, hnd⟩)
    intro hmem
    have := hb _ hmem
    omega

/-- `close_position` preserves the invariant (in both the matched and the
erroring branch). -/
theorem inv_close_position {L : Ledger} (h : Inv L) (t : Trade) :
    Inv ((close_position L t).2) := by
  cases hm : L.opened_positions.filter (matches_trade t) with
  | nil => rw [close_position_of_filter_nil hm]; exact h
  | cons pos rest =>
    rw [close_position_of_filter_cons hm]
    obtain ⟨ho, hc, hd, hop, hb, hnd⟩ := h
    have hposmem : pos ∈ L.opened_positions :=
      List.mem_of_mem_filter (hm ▸ List.mem_cons_self pos rest)
    have hBperm : List.Perm (L.opened_positions.map Position.id)
        (pos.id :: (L.opened_positions.erase pos).map Position.id) :=
      List.Perm.map Position.id (List.perm_cons_erase hposmem)
    have hid : (apply_close t pos).id = pos.id := rfl
    have hperm :
        List.Perm
          (allIds { L with
            opened_positions := L.opened_positions.erase pos,
            closed_positions := L.closed_positions ++ [apply_close t pos] })
          (allIds L) := by
      simp only [allIds, List.map_append, List.map_cons, List.map_nil, List.append_assoc, hid]
      refine List.Perm.append_left _ ?_
      have s1 : List.Perm
          ((L.opened_positions.erase pos).map Position.id ++
            (L.closed_positions.map Position.id ++ [pos.id]))
          ((L.opened_positions.erase pos).map Position.id ++
            (pos.id :: L.closed_positions.map Position.id)) := by
        refine List.Perm.append_left _ ?_
        rw [← List.singleton_append]
        exact List.perm_append_comm
      have s2 : List.Perm
          ((L.opened_positions.erase pos).map Position.id ++
            (pos.id :: L.closed_positions.map Position.id))
          (pos.id :: ((L.opened_positions.erase pos).map Position.id ++
            L.closed_positions.map Position.id)) := List.perm_middle
      have s3 : List.Perm
          (pos.id :: ((L.opened_positions.erase pos).map Position.id ++
            L.closed_positions.map Position.id))
          (L.opened_positions.map Position.id ++ L.closed_positions.map Position.id) :=
        hBperm.symm.append_right _
      exact (s1.trans s2).trans s3
    refine ⟨?_, ?_, hd, ?_, ?_, ?_⟩
    · intro p hp
      exact ho p (List.mem_of_mem_erase hp)
    · intro p hp
      rcases List.mem_append.mp hp with hmem | hmem
      · exact hc p hmem
      · simp only [List.mem_singleton] at hmem
        rw [hmem]
        simp [apply_close]
    · exact List.Pairwise.sublist ((List.erase_sublist pos _).map Position.id) hop
    · intro i hi
      exact hb i (hperm.mem_iff.mp hi)
    · exact hperm.symm.nodup hnd

/-- Every driver step preserves the invariant. -/
theorem inv_step {L : Ledger} (h : Inv L) (e : Event) : Inv (step L e) := by
  cases e with
  | dep time amount => exact inv_deposit h time amount
  | opn t => exact inv_open_position h t
  | cls t => exact inv_close_position h t

/-- Running any event sequence preserves the invariant. -/
theorem inv_runFrom {L : Ledger} (h : Inv L) (es : List Event) :
    Inv (runFrom L es) := by
  induction es generalizing L with
  | nil => exact h
  | cons e es ih => exact ih (inv_step h e)

/-- Every reachable ledger state satisfies the invariant. -/
theorem inv_run (es : List Event) : Inv (run es) :=
  inv_runFrom inv_init es

/-- The ticket counter never decreases along a step. -/
theorem last_id_le_step (L : Ledger) (e : Event) : L.last_id ≤ (step L e).last_id := by
  cases e with
  | dep time amount => exact Nat.le_succ _
  | opn t => exact Nat.le_succ _
  | cls t =>
    have : (step L (Event.cls t)).last_id = L.last_id := by
      cases hm : L.opened_positions.filter (matches_trade t) with
      | nil => simp [step, close_position_of_filter_nil hm]
      | cons pos rest => simp [step, close_position_of_filter_cons hm]
    omega

/-- Every ticket handed out during a run exceeds the counter the run started
from. -/
theorem tickets_assigned_gt (es : List Event) :
    ∀ (L : Ledger), ∀ x ∈ tickets_assigned L es, L.last_id < x := by
  induction es with
  | nil => intro L x hx; simp [tickets_assigned] at hx
  | cons e es ih =>
    intro L x hx
    cases e with
    | dep time amount =>
      rcases List.mem_cons.mp hx with rfl | hmem
      · omega
      · have := ih (step L (Event.dep time amount)) x hmem
        have hle := last_id_le_step L (Event.dep time amount)
        omega
    | opn t =>
      rcases List.mem_cons.mp hx with rfl | hmem
      · omega
      · have := ih (step L (Event.opn t)) x hmem
        have hle := last_id_le_step L (Event.opn t)
        omega
    | cls t =>
      have := ih (step L (Event.cls t)) x hx
      have hle := last_id_le_step L (Event.cls t)
      omega

/-- The tickets handed out during a run are strictly increasing. -/
theorem tickets_assigned_pairwise (es : List Event) (L : Ledger) :
    (tickets_assigned L es).Pairwise (· < ·) := by
  induction es generalizing L with
  | nil => exact List.Pairwise.nil
  | cons e es ih =>
    cases e with
    | dep time amount =>
      refine List.Pairwise.cons ?_ (ih _)
      intro y hy
      have := tickets_assigned_gt es (step L (Event.dep time amount)) y hy
      exact this
    | opn t =>
      refine List.Pairwise.cons ?_ (ih _)
      intro y hy
      have := tickets_assigned_gt es (step L (Event.opn t)) y hy
      exact this
    | cls t => exact ih _

/-- `finishRow` leaves the ticket column unchanged. -/
@[simp] theorem finishRow_ticket (r : RawRow) : (finishRow r).ticket = r.ticket := rfl

/-- The ticket of a deposit row is the deposit's id. -/
@[simp] theorem deposit_raw_ticket (tx : Deposit) : (deposit_raw tx).ticket = tx.id := rfl

/-- The ticket of a closed-position row is the position's id. -/
@[simp] theorem position_raw_ticket (p : Position) : (position_raw p).ticket = p.id := rfl

/-- The ticket column of the export is a permutation of the deposit ids
followed by the closed-position ids: one row per deposit and one per closed
position, and nothing else. -/
theorem export_ticket_perm (L : Ledger) :
    List.Perm ((as_cannonical_data L).map Row.ticket)
      (L.deposits.map Deposit.id ++ L.closed_positions.map Position.id) := by
  unfold as_cannonical_data
  rw [List.map_map]
  have h1 := (List.perm_insertionSort rowLE
    (L.deposits.map deposit_raw ++ L.closed_positions.map position_raw)).map
    (Row.ticket ∘ finishRow)
  simpa [List.map_append, List.map_map, Function.comp] using h1

/-- The ticket column of the export is weakly increasing. -/
theorem export_ticket_sorted_le (L : Ledger) :
    ((as_cannonical_data L).map Row.ticket).Pairwise (· ≤ ·) := by
  unfold as_cannonical_data
  rw [List.map_map, List.pairwise_map]
  exact List.Pairwise.imp (fun h => h)
    (List.sorted_insertionSort rowLE
      (L.deposits.map deposit_raw ++ L.closed_positions.map position_raw))

/-- Under the invariant, the deposit ids and closed-position ids are jointly
distinct. -/
theorem ids_dc_nodup {L : Ledger} (h : Inv L) :
    (L.deposits.map Deposit.id ++ L.closed_positions.map Position.id).Nodup := by
  have hsub : (L.deposits.map Deposit.id ++ L.closed_positions.map Position.id).Sublist
      (allIds L) := by
    unfold allIds
    rw [List.append_assoc]
    exact (List.Sublist.refl _).append (List.sublist_append_right _ _)
  exact hsub.nodup h.2.2.2.2.2

/-- Under the invariant, the ticket column of the export is strictly
increasing. -/
theorem export_ticket_sorted_lt {L : Ledger} (h : Inv L) :
    ((as_cannonical_data L).map Row.ticket).Pairwise (· < ·) :=
  pairwise_lt_of_le_nodup (export_ticket_sorted_le L)
    ((export_ticket_perm L).symm.nodup (ids_dc_nodup h))

/-- Every row of the canonical table satisfies
`Net profit = Profit + Swap + Commission` (NaN-propagating), because the
column is computed from the other three after the sort. -/
theorem export_net_profit (L : Ledger) :
    ∀ r ∈ as_cannonical_data L,
      r.net_profit = r.profit.map (fun x => x + r.swap + r.commission) := by
  intro r hr
  unfold as_cannonical_data at hr
  obtain ⟨raw, -, rfl⟩ := List.mem_map.mp hr
  rfl

/-! ### Claims -/

/-- Claim C1: when two or more open positions of a reachable ledger match a
closing deal's (symbol, side, volume) exactly, `close_position` selects the
first match in the open list -- which has the lowest ticket of all matches
-- removes it from the open list, and a second close with the same key then
selects the next-oldest match; an open position whose volume differs from
the deal's volume is never matched and stays in the open list. -/
theorem c1_fifo_close_matching (es : List Event) (t t' : Trade)
    (hsym : t'.symbol = t.symbol) (hty : t'.pos_type = t.pos_type)
    (hvol : t'.volume = t.volume) (p₁ p₂ : Position) (rest : List Position)
    (hm : (run es).opened_positions.filter (matches_trade t) = p₁ :: p₂ :: rest) :
    (close_position (run es) t).1 = Except.ok () ∧
    (close_position (run es) t).2.closed_positions
      = (run es).closed_positions ++ [apply_close t p₁] ∧
    (close_position (run es) t).2.opened_positions
      = (run es).opened_positions.erase p₁ ∧
    (∀ q ∈ (run es).opened_positions.filter (matches_trade t), p₁.id ≤ q.id) ∧
    ((close_position (run es) t).2.opened_positions.filter (matches_trade t')
      = p₂ :: rest) ∧
    ((close_position ((close_position (run es) t).2) t').2.closed_positions
      = (close_position (run es) t).2.closed_positions ++ [apply_close t' p₂]) ∧
    (∀ p ∈ (run es).opened_positions, p.volume ≠ t.volume →
      p ∈ (close_position (run es) t).2.opened_positions) := by
  obtain ⟨-, -, -, hop, -, -⟩ := inv_run es
  have hfun : matches_trade t' = matches_trade t := by
    funext pos
    simp [matches_trade, hsym, hty, hvol]
  have hcp := close_position_of_filter_cons hm
  have hmin : ∀ q ∈ (run es).opened_positions.filter (matches_trade t), p₁.id ≤ q.id := by
    have hpw : (((run es).opened_positions.filter (matches_trade t)).map
        Position.id).Pairwise (· < ·) :=
      List.Pairwise.sublist ((List.filter_sublist _).map Position.id) hop
    rw [hm] at hpw
    intro q hq
    rw [hm] at hq
    rcases List.mem_cons.mp hq with rfl | hq'
    · exact Nat.le_refl _
    · exact Nat.le_of_lt ((List.pairwise_cons.mp hpw).1 q.id
        (List.mem_map_of_mem Position.id hq'))
  have hrem : ((run es).opened_positions.erase p₁).filter (matches_trade t)
      = p₂ :: rest :=
    filter_erase_head (matches_trade t) (run es).opened_positions p₁ (p₂ :: rest) hm
  have hrem' : (close_position (run es) t).2.opened_positions.filter (matches_trade t')
      = p₂ :: rest := by
    rw [hcp, hfun]
    exact hrem
  refine ⟨by rw [hcp], by rw [hcp], by rw [hcp], hmin, hrem', ?_, ?_⟩
  · rw [close_position_of_filter_cons hrem']
  · intro p hp hvp
    have hvp₁ : p₁.volume = t.volume := by
      have h1 : matches_trade t p₁ = true :=
        List.of_mem_filter (hm ▸ List.mem_cons_self p₁ (p₂ :: rest))
      simp [matches_trade] at h1
      exact h1.2
    have hne : p ≠ p₁ := by
      intro hEq
      rw [hEq] at hvp
      exact hvp hvp₁
    rw [hcp]
    exact (List.mem_erase_of_ne hne).mpr hp

/-- Witness for C1 at two same-key opens followed by two same-key closes:
the first close takes ticket 1, the second takes ticket 2. -/
theorem c1_fifo_close_matching_witness :
    ((run [Event.opn egOpen1, Event.opn egOpen2]).opened_positions.filter
        (matches_trade egClose) = [egPos1, egPos2]) ∧
    ((close_position (run [Event.opn egOpen1, Event.opn egOpen2]) egClose).2.closed_positions
      = (run [Event.opn egOpen1, Event.opn egOpen2]).closed_positions
          ++ [apply_close egClose egPos1]) ∧
    ((close_position ((close_position (run [Event.opn egOpen1, Event.opn egOpen2])
          egClose).2) egClose).2.closed_positions
      = (close_position (run [Event.opn egOpen1, Event.opn egOpen2]) egClose).2.closed_positions
          ++ [apply_close egClose egPos2]) := by
  have h := c1_fifo_close_matching [Event.opn egOpen1, Event.opn egOpen2]
    egClose egClose rfl rfl rfl egPos1 egPos2 [] (by decide)
  exact ⟨by decide, h.2.1, h.2.2.2.2.2.1⟩

/-- Claim C2: a `close_position` call whose (symbol, side, volume) matches no
open position fails with the error identifying exactly the requested symbol,
side and volume, and leaves the whole ledger state -- open list, closed
list, deposits and ticket counter -- unchanged. -/
theorem c2_unmatched_close_rejected (L : Ledger) (t : Trade)
    (h : ∀ p ∈ L.opened_positions, matches_trade t p = false) :
    (close_position L t).1 =
      Except.error { symbol := t.symbol, pos_type := t.pos_type, volume := t.volume } ∧
    (close_position L t).2 = L ∧
    (close_position L t).2.opened_positions = L.opened_positions ∧
    (close_position L t).2.closed_positions = L.closed_positions ∧
    (close_position L t).2.deposits = L.deposits ∧
    (close_position L t).2.last_id = L.last_id := by
  have hnil : L.opened_positions.filter (matches_trade t) = [] :=
    List.filter_eq_nil_iff.mpr (by intro a ha; simp [h a ha])
  rw [close_position_of_filter_nil hnil]
  exact ⟨rfl, rfl, rfl, rfl, rfl, rfl⟩

/-- Witness for C2: a buy of volume 1 is open; closing volume 2 errors with
the requested key and the ledger is untouched. -/
theorem c2_unmatched_close_rejected_witness :
    (∀ p ∈ egOpenLedger.opened_positions, matches_trade egBadClose p = false) ∧
    (close_position egOpenLedger egBadClose).2 = egOpenLedger :=
  ⟨by decide, (c2_unmatched_close_rejected egOpenLedger egBadClose (by decide)).2.1⟩

/-- Counterexample for C3 as stated: on a concrete ledger with an open
position remaining, `as_cannonical_data` itself does not raise -- it returns
a table (here one deposit row, silently omitting the open position).  The
incomplete-ledger error is raised only by the reader wrapper
(`Mt5Reader.get_cannoncial_data` / `Mt4HTMLReader._parse`). -/
theorem c3_counterexample :
    has_open_positions egMixedLedger = true ∧
    (as_cannonical_data egMixedLedger).length = 1 ∧
    (as_cannonical_data egMixedLedger).map Row.type = ["Deposit"] ∧
    get_cannoncial_data egMixedLedger
      = Except.error "Some positions are still open" := by
  refine ⟨by decide, by decide, by decide, rfl⟩

/-- Claim C3 amended: the incomplete-ledger check lives in the reader-level
export `get_cannoncial_data`, which errors exactly when an open position
remains and otherwise returns `as_cannonical_data()`; the portfolio method
`as_cannonical_data` itself always returns a table. -/
theorem c3_export_guard (L : Ledger) :
    (has_open_positions L = true →
      get_cannoncial_data L = Except.error "Some positions are still open") ∧
    (has_open_positions L = false →
      get_cannoncial_data L = Except.ok (as_cannonical_data L)) ∧
    (as_cannonical_dataM L).1 = as_cannonical_data L := by
  refine ⟨fun h => ?_, fun h => ?_, rfl⟩
  · simp [get_cannoncial_data, h]
  · simp [get_cannoncial_data, h]

/-- Witness for C3: the guard errors on the concrete open ledger and
succeeds on the concrete fully-closed one. -/
theorem c3_export_guard_witness :
    has_open_positions egMixedLedger = true ∧
    get_cannoncial_data egMixedLedger = Except.error "Some positions are still open" ∧
    has_open_positions egClosedLedger = false ∧
    get_cannoncial_data egClosedLedger = Except.ok (as_cannonical_data egClosedLedger) :=
  ⟨by decide, (c3_export_guard egMixedLedger).1 (by decide), by decide,
    (c3_export_guard egClosedLedger).2.1 (by decide)⟩

/-- Claim C4: opening a position and then closing it with the same (symbol,
side, volume) -- with no older match in the way -- yields a closed position
that keeps the ticket assigned at the opening call (the close assigns no new
ticket), whose swap, commission and profit are the sums of the two deals'
contributions, and every row of the resulting export satisfies
`Net profit = Profit + Swap + Commission`. -/
theorem c4_open_close_accumulates (L : Ledger) (t₁ t₂ : Trade) (q₁ q₂ : ℚ)
    (hsym : t₂.symbol = t₁.symbol) (hty : t₂.pos_type = t₁.pos_type)
    (hvol : t₂.volume = t₁.volume)
    (hnone : ∀ p ∈ L.opened_positions, matches_trade t₂ p = false)
    (hq₁ : t₁.profit = some q₁) (hq₂ : t₂.profit = some q₂) :
    ∃ pos : Position,
      (close_position (open_position L t₁) t₂).1 = Except.ok () ∧
      (close_position (open_position L t₁) t₂).2.closed_positions
        = L.closed_positions ++ [pos] ∧
      pos.id = L.last_id + 1 ∧
      (close_position (open_position L t₁) t₂).2.last_id = L.last_id + 1 ∧
      pos.swap = t₁.swap + t₂.swap ∧
      pos.commission = t₁.commission + t₂.commission ∧
      pos.profit = some (q₁ + q₂) ∧
      (∀ r ∈ as_cannonical_data ((close_position (open_position L t₁) t₂).2),
        r.net_profit = r.profit.map (fun x => x + r.swap + r.commission)) := by
  have hfilter : (open_position L t₁).opened_positions.filter (matches_trade t₂)
      = [opened_of L t₁] := by
    show (L.opened_positions ++ [opened_of L t₁]).filter (matches_trade t₂) = _
    rw [List.filter_append]
    rw [List.filter_eq_nil_iff.mpr (by intro a ha; simp [hnone a ha])]
    rw [List.nil_append]
    rw [List.filter_cons_of_pos (by simp [matches_trade, opened_of, hsym, hty, hvol])]
    rfl
  have hcp := close_position_of_filter_cons hfilter
  refine ⟨apply_close t₂ (opened_of L t₁),
    by rw [hcp], by rw [hcp]; rfl, rfl, by rw [hcp]; rfl, rfl, rfl, ?_, ?_⟩
  · show naddQ (some (t₁.profit.getD 0)) t₂.profit = some (q₁ + q₂)
    rw [hq₁, hq₂]
    simp [naddQ]
  · exact export_net_profit _

/-- Witness for C4 on a fresh ledger: the open at ticket 1 closed by the
matching deal keeps ticket 1. -/
theorem c4_open_close_accumulates_witness :
    egClose.symbol = egOpen1.symbol ∧ egClose.pos_type = egOpen1.pos_type ∧
    egClose.volume = egOpen1.volume ∧ egOpen1.profit = some 0 ∧
    egClose.profit = some 500 ∧
    (∃ pos : Position,
      (close_position (open_position Ledger.init egOpen1) egClose).1 = Except.ok () ∧
      (close_position (open_position Ledger.init egOpen1) egClose).2.closed_positions
        = Ledger.init.closed_positions ++ [pos] ∧
      pos.id = Ledger.init.last_id + 1 ∧
      (close_position (open_position Ledger.init egOpen1) egClose).2.last_id
        = Ledger.init.last_id + 1 ∧
      pos.swap = egOpen1.swap + egClose.swap ∧
      pos.commission = egOpen1.commission + egClose.commission ∧
      pos.profit = some (0 + 500) ∧
      (∀ r ∈ as_cannonical_data ((close_position (open_position Ledger.init egOpen1) egClose).2),
        r.net_profit = r.profit.map (fun x => x + r.swap + r.commission))) :=
  ⟨rfl, rfl, rfl, rfl, rfl,
    c4_open_close_accumulates Ledger.init egOpen1 egClose 0 500 rfl rfl rfl
      (by decide) rfl rfl⟩

/-- Claim C5: tickets for deposits and positions come from the one shared
counter and are handed out strictly increasing in creation order; the export
has one row per deposit and one per closed position and its ticket column is
strictly ascending (so the table interleaves deposits and positions in true
creation order). -/
theorem c5_ticket_ordering (es : List Event) :
    (tickets_assigned Ledger.init es).Pairwise (· < ·) ∧
    ((as_cannonical_data (run es)).map Row.ticket).Pairwise (· < ·) ∧
    List.Perm ((as_cannonical_data (run es)).map Row.ticket)
      ((run es).deposits.map Deposit.id ++ (run es).closed_positions.map Position.id) :=
  ⟨tickets_assigned_pairwise es Ledger.init, export_ticket_sorted_lt (inv_run es),
    export_ticket_perm (run es)⟩

/-- Counterexample for C6 as stated: on a concrete one-deposit ledger the
deposit row's `Symbol` column is not a zeroed value but missing (`none`,
the `NaN` that `pd.concat` fills into a column absent from the deposit
frame). -/
theorem c6_counterexample :
    (as_cannonical_data egDepositLedger).map Row.type = ["Deposit"] ∧
    (as_cannonical_data egDepositLedger).map Row.symbol = [none] ∧
    (none : Option String) ≠ some "" ∧ (none : Option String) ≠ some "0" := by
  refine ⟨by decide, by decide, by decide, by decide⟩

/-- Claim C6 amended: every deposit of a reachable ledger produces exactly
one export row, tagged `Type = "Deposit"`, with lots and both prices zeroed
but the symbol and side columns missing (`none`, not zeroed), the amount in
the Profit column, zero swap and commission, hence `Net profit` equal to
the amount; every closed position's row is tagged
`Type = "Closed position"`. -/
theorem c6_deposit_row_fields (es : List Event) (tx : Deposit)
    (htx : tx ∈ (run es).deposits) :
    ((as_cannonical_data (run es)).filter (fun r => r.ticket == tx.id)
      = [finishRow (deposit_raw tx)]) ∧
    (finishRow (deposit_raw tx)).type = "Deposit" ∧
    (finishRow (deposit_raw tx)).symbol = none ∧
    (finishRow (deposit_raw tx)).buy_sell = none ∧
    (finishRow (deposit_raw tx)).lots = 0 ∧
    (finishRow (deposit_raw tx)).open_price = 0 ∧
    (finishRow (deposit_raw tx)).close_price = some 0 ∧
    (finishRow (deposit_raw tx)).profit = some tx.amount ∧
    (finishRow (deposit_raw tx)).swap = 0 ∧
    (finishRow (deposit_raw tx)).commission = 0 ∧
    (finishRow (deposit_raw tx)).net_profit = some tx.amount ∧
    (∀ pos ∈ (run es).closed_positions,
      (finishRow (position_raw pos)).type = "Closed position") := by
  have hnd0 : ((run es).deposits.map Deposit.id ++
      (run es).closed_positions.map Position.id).Nodup := ids_dc_nodup (inv_run es)
  have hndraw : (((run es).deposits.map deposit_raw ++
      (run es).closed_positions.map position_raw).map RawRow.ticket).Nodup := by
    simpa [List.map_append, List.map_map, Function.comp] using hnd0
  have hmem : deposit_raw tx ∈ (run es).deposits.map deposit_raw ++
      (run es).closed_positions.map position_raw :=
    List.mem_append_left _ (List.mem_map_of_mem deposit_raw htx)
  have hsingle := filter_key_singleton RawRow.ticket _ (deposit_raw tx) hmem hndraw
  have hfil : (as_cannonical_data (run es)).filter (fun r => r.ticket == tx.id)
      = [finishRow (deposit_raw tx)] := by
    unfold as_cannonical_data
    rw [List.filter_map]
    have hperm := (List.perm_insertionSort rowLE
      ((run es).deposits.map deposit_raw ++
        (run es).closed_positions.map position_raw)).filter
      ((fun r : Row => r.ticket == tx.id) ∘ finishRow)
    have hpred : ((fun r : Row => r.ticket == tx.id) ∘ finishRow)
        = (fun y : RawRow => y.ticket == (deposit_raw tx).ticket) := rfl
    rw [hpred] at hperm
    rw [hsingle] at hperm
    rw [hpred, List.perm_singleton.mp hperm]
    rfl
  refine ⟨hfil, rfl, rfl, rfl, rfl, rfl, rfl, rfl, rfl, rfl, ?_, fun pos _ => rfl⟩
  show (some tx.amount).map (fun x => x + (0:ℚ) + (0:ℚ)) = some tx.amount
  simp

/-- Witness for C6 at the concrete one-deposit ledger. -/
theorem c6_deposit_row_fields_witness :
    ({ id := 1, time := 5, amount := 100 } : Deposit) ∈ (run [Event.dep 5 100]).deposits ∧
    (as_cannonical_data (run [Event.dep 5 100])).filter
        (fun r => r.ticket == (1 : ℕ))
      = [finishRow (deposit_raw { id := 1, time := 5, amount := 100 })] :=
  ⟨by decide,
    (c6_deposit_row_fields [Event.dep 5 100] { id := 1, time := 5, amount := 100 }
      (by decide)).1⟩

/-- Claim C7: when the close deal carries a comment, the closed position's
comment is the opening comment with the deal comment appended in brackets
(so `"grid-1"` closed by `"tp-hit"` becomes `"grid-1 [tp-hit]"`); when the
close deal carries no comment, the comment is left unchanged. -/
theorem c7_comment_append (L : Ledger) (t : Trade) (p : Position)
    (rest : List Position)
    (hm : L.opened_positions.filter (matches_trade t) = p :: rest) :
    (close_position L t).2.closed_positions = L.closed_positions ++ [apply_close t p] ∧
    (p.comment = "grid-1" → t.comment = some "tp-hit" →
      (apply_close t p).comment = "grid-1 [tp-hit]") ∧
    (t.comment = none → (apply_close t p).comment = p.comment) := by
  refine ⟨by rw [close_position_of_filter_cons hm], ?_, ?_⟩
  · intro hp ht
    simp [apply_close, hp, ht]
  · intro ht
    simp [apply_close, ht]

/-- Witness for C7: the concrete `"grid-1"` position closed by the
`"tp-hit"` deal carries comment `"grid-1 [tp-hit]"`. -/
theorem c7_comment_append_witness :
    ((run [Event.opn egOpen1]).opened_positions.filter (matches_trade egClose)
        = [egPos1]) ∧
    egPos1.comment = "grid-1" ∧ egClose.comment = some "tp-hit" ∧
    (apply_close egClose egPos1).comment = "grid-1 [tp-hit]" :=
  ⟨by decide, by decide, by decide,
    (c7_comment_append (run [Event.opn egOpen1]) egClose egPos1 [] (by decide)).2.1
      (by decide) (by decide)⟩

/-- Claim C8: on a fully-closed ledger, the export method run twice (viewed
as a state transformer, since it assigns nothing to `self`) produces the
same table both times and leaves the ledger state exactly as it was. -/
theorem c8_export_idempotent (L : Ledger) (_h : has_open_positions L = false) :
    (as_cannonical_dataM L).1 = (as_cannonical_dataM (as_cannonical_dataM L).2).1 ∧
    (as_cannonical_dataM (as_cannonical_dataM L).2).2 = L :=
  ⟨rfl, rfl⟩

/-- Witness for C8 at a concrete fully-closed ledger. -/
theorem c8_export_idempotent_witness :
    has_open_positions egClosedLedger = false ∧
    (as_cannonical_dataM egClosedLedger).1 =
      (as_cannonical_dataM (as_cannonical_dataM egClosedLedger).2).1 :=
  ⟨by decide, (c8_export_idempotent egClosedLedger (by decide)).1⟩

/-- On an event without `NaN` fields, the two implementations' steps agree:
the only code difference is the missing `pd.isna` guard on the profit in
the `mt5_reader.py` `open_position`, which matters only for `NaN`. -/
theorem mt5_step_eq {e : Event} (h : event_not_nan e = true) (L : Ledger) :
    mt5_step L e = step L e := by
  cases e with
  | dep time amount => rfl
  | opn t =>
    simp only [event_not_nan, Bool.and_eq_true, Option.isSome_iff_exists] at h
    obtain ⟨⟨q, hq⟩, -⟩ := h
    simp [mt5_step, step, mt5_open_position, open_position, opened_of, hq]
  | cls t => rfl

/-- The two portfolios are equal after any run of `NaN`-free events. -/
theorem mt5_runFrom_eq (es : List Event) (h : ∀ e ∈ es, event_not_nan e = true) :
    ∀ L, mt5_runFrom L es = runFrom L es := by
  induction es with
  | nil => intro L; rfl
  | cons e es ih =>
    intro L
    have h1 : event_not_nan e = true := h e (List.mem_cons_self e es)
    have h2 : ∀ x ∈ es, event_not_nan x = true :=
      fun x hx => h x (List.mem_cons_of_mem e hx)
    show mt5_runFrom (mt5_step L e) es = runFrom (step L e) es
    rw [mt5_step_eq h1]
    exact ih h2 _

/-- Claim C9: driving the `base.py` and `mt5_reader.py` `FifoPortfolio`
implementations through the same sequence of deposit/open/close events with
non-`NaN` profit and comment fields yields identical ledgers -- same
deposits and same closed positions, tickets, attributes and order -- and
canonical tables with identical rows. -/
theorem c9_base_mt5_equivalent (es : List Event)
    (h : ∀ e ∈ es, event_not_nan e = true) :
    mt5_run es = run es ∧
    (mt5_run es).deposits = (run es).deposits ∧
    (mt5_run es).closed_positions = (run es).closed_positions ∧
    mt5_as_cannonical_data (mt5_run es) = as_cannonical_data (run es) := by
  have h1 : mt5_run es = run es := mt5_runFrom_eq es h Ledger.init
  exact ⟨h1, by rw [h1], by rw [h1], by rw [h1]; rfl⟩

/-- Witness for C9 on a concrete deposit/open/close sequence. -/
theorem c9_base_mt5_equivalent_witness :
    (∀ e ∈ [Event.dep 5 100, Event.opn egOpen1, Event.cls egClose],
      event_not_nan e = true) ∧
    mt5_run [Event.dep 5 100, Event.opn egOpen1, Event.cls egClose]
      = run [Event.dep 5 100, Event.opn egOpen1, Event.cls egClose] :=
  ⟨by decide, (c9_base_mt5_equivalent
    [Event.dep 5 100, Event.opn egOpen1, Event.cls egClose] (by decide)).1⟩

/-- Claim C10: in every reachable ledger state, positions in the open list
are open (`is_open` true) and positions in the closed list are closed, and
`has_open_positions` is true exactly when some position created so far is
still unclosed. -/
theorem c10_open_closed_partition (es : List Event) :
    (∀ p ∈ (run es).opened_positions, p.is_open = true) ∧
    (∀ p ∈ (run es).closed_positions, p.is_open = false) ∧
    (has_open_positions (run es) = true ↔
      ∃ p, (p ∈ (run es).opened_positions ∨ p ∈ (run es).closed_positions) ∧
        p.is_open = true) := by
  obtain ⟨ho, hc, -, -, -, -⟩ := inv_run es
  have hopen : ∀ p ∈ (run es).opened_positions, p.is_open = true := by
    intro p hp
    simp [Position.is_open, ho p hp]
  have hclosed : ∀ p ∈ (run es).closed_positions, p.is_open = false := by
    intro p hp
    cases htc : p.close_time with
    | none => exact absurd htc (hc p hp)
    | some v => simp [Position.is_open, htc]
  refine ⟨hopen, hclosed, ?_, ?_⟩
  · intro h
    have hlen : 0 < (run es).opened_positions.length := by
      simpa [has_open_positions] using h
    obtain ⟨p, hp⟩ := List.exists_mem_of_length_pos hlen
    exact ⟨p, Or.inl hp, hopen p hp⟩
  · rintro ⟨p, hp | hp, hio⟩
    · have : 0 < (run es).opened_positions.length := List.length_pos_of_mem hp
      simpa [has_open_positions] using this
    · rw [hclosed p hp] at hio
      exact absurd hio (by simp)

end Pai
